import Mathlib

/-!
Shallow embedding of `danawa_fridge_crawl.py`, a browser-driven crawler that
walks a paginated product listing, parses three labeled capacity fields out of
each product's free-text spec with `re.search`, and writes the accumulated rows
to a CSV file once at the end of the run.

Strings are modelled as Lean `String`/`List Char`.  The three capacity regexes
`총용량\s*:?\s*([\d,]+)\s*L`, `냉장\s*:?\s*([\d,]+)\s*L` and
`냉동\s*:?\s*([\d,]+)\s*L` share the shape "literal label, then
`\s*:?\s*([\d,]+)\s*L`"; since the character classes of adjacent pattern pieces
are pairwise disjoint (whitespace, `:`, digits-and-commas, `L`), greedy
left-to-right matching with no backtracking coincides with Python's backtracking
semantics, and `re.search` is the leftmost such match.  `\d`/`\s` are modelled
on the character range that occurs in the crawled data (ASCII digits and
whitespace).  Python exceptions are modelled with `Except`: `int("")` raises
`ValueError`, and nothing in the program catches it.  The DOM is abstracted to
the values the code actually reads from it: each candidate `li` item yields the
optional text of its name anchor and of its two alternative spec blocks, and
the pagination state of a page is the set of labels of clickable numeric page
links plus the optional class attribute of a clickable "next page" control
(`none` models a `WebDriverWait` timeout, the only exception the code catches).
-/

set_option maxRecDepth 8192

namespace Danawa

/-- Python `\s` on the ASCII range: space, tab, newline, carriage return,
vertical tab, form feed. -/
def isSpace (c : Char) : Bool :=
  c = ' ' || c = '\t' || c = '\n' || c = '\r' || c = '\x0b' || c = '\x0c'

/-- The character class `[\d,]` of the capture group. -/
def isDigitOrComma (c : Char) : Bool := c.isDigit || c = ','

/-- Match the tail `\s*:?\s*([\d,]+)\s*L` of the three capacity patterns at the
start of `s`, returning the text of capture group 1.  Greedy and deterministic,
which agrees with Python's backtracking matcher because the adjacent character
classes are disjoint. -/
def matchRest (s : List Char) : Option (List Char) :=
  let s1 := s.dropWhile isSpace
  let s2 := match s1 with
    | ':' :: r => r
    | _ => s1
  let s3 := s2.dropWhile isSpace
  let g := s3.takeWhile isDigitOrComma
  let s4 := s3.dropWhile isDigitOrComma
  if g.isEmpty then none
  else
    match s4.dropWhile isSpace with
    | 'L' :: _ => some g
    | _ => none

/-- Match `label\s*:?\s*([\d,]+)\s*L` at the start of `s`. -/
def matchAt (label : List Char) (s : List Char) : Option (List Char) :=
  match label, s with
  | [], s => matchRest s
  | _ :: _, [] => none
  | c :: l, c' :: s => if c = c' then matchAt l s else none

/-- `re.search`: try the pattern at every position of the text, leftmost match
first; return capture group 1 of the first match. -/
def reSearch (label : List Char) : List Char → Option (List Char)
  | [] => matchAt label []
  | c :: rest =>
    match matchAt label (c :: rest) with
    | some g => some g
    | none => reSearch label rest

/-- The one Python exception this program can raise and does not catch. -/
inductive PyError where
  | valueError : PyError
deriving DecidableEq

/-- Python `int` applied to the comma-stripped capture group: parses a nonempty
all-digit string as a decimal number, raises `ValueError` otherwise (in
particular on the empty string). -/
def pyInt (s : List Char) : Except PyError Nat :=
  if !s.isEmpty && s.all Char.isDigit then
    .ok (s.foldl (fun a c => a * 10 + (c.toNat - 48)) 0)
  else .error .valueError

/-- `.replace(",", "")` on a capture-group string. -/
def removeCommas (s : List Char) : List Char := s.filter (fun c => c != ',')

/-- `find_l` from the source: `re.search` the pattern; `None` when there is no
match, else `int(m.group(1).replace(",", ""))`. -/
def find_l (label : List Char) (spec_text : List Char) : Except PyError (Option Nat) :=
  match reSearch label spec_text with
  | none => .ok none
  | some g =>
    match pyInt (removeCommas g) with
    | .ok n => .ok (some n)
    | .error e => .error e

/-- The literal label of the `총용량` (total capacity) pattern. -/
def totalLabel : List Char := ['총', '용', '량']

/-- The literal label of the `냉장` (fridge) pattern. -/
def fridgeLabel : List Char := ['냉', '장']

/-- The literal label of the `냉동` (freezer) pattern. -/
def freezerLabel : List Char := ['냉', '동']

/-- `extract_capacities`: search the three labeled fields independently, in the
source's order (total, fridge, freezer); a `ValueError` raised by any `find_l`
propagates. -/
def extract_capacities (spec_text : String) :
    Except PyError (Option Nat × Option Nat × Option Nat) :=
  match find_l totalLabel spec_text.data with
  | .error e => .error e
  | .ok total_l =>
    match find_l fridgeLabel spec_text.data with
    | .error e => .error e
    | .ok fridge_l =>
      match find_l freezerLabel spec_text.data with
      | .error e => .error e
      | .ok freezer_l => .ok (total_l, fridge_l, freezer_l)

/-- A row of the output: `(name, total_l, freezer_l, fridge_l)`. -/
abbrev Row := String × Nat × Nat × Nat

/-- A candidate `li.prod_item.prod_layer` element, abstracted to the three
texts the extractor reads from it: the text of `p.prod_name > a` (absent when
the selector does not match), and the texts of the two alternative spec blocks
`div.spec_list` and `div.prod_spec_set`. -/
structure Item where
  name : Option String
  spec_list : Option String
  prod_spec_set : Option String

/-- The spec element actually used: `div.spec_list` first, falling back to
`div.prod_spec_set` when the primary selector is absent. -/
def specOf (it : Item) : Option String :=
  match it.spec_list with
  | some s => some s
  | none => it.prod_spec_set

/-- `parse_current_page`: walk the candidate items in DOM order; skip an item
whose name is absent or where neither spec selector matches; run
`extract_capacities` on the spec text; emit `(name, total, freezer, fridge)`
only when all three fields parsed, skip otherwise; a `ValueError` aborts the
whole call (Python raises out of the loop, returning nothing). -/
def parse_current_page : List Item → Except PyError (List Row)
  | [] => .ok []
  | it :: rest =>
    match it.name with
    | none => parse_current_page rest
    | some name =>
      match specOf it with
      | none => parse_current_page rest
      | some spec_text =>
        match extract_capacities spec_text with
        | .error e => .error e
        | .ok (some total_l, some fridge_l, some freezer_l) =>
          match parse_current_page rest with
          | .error e => .error e
          | .ok rs => .ok ((name, total_l, freezer_l, fridge_l) :: rs)
        | .ok _ => parse_current_page rest

/-- Does `pat` occur at the start of `s`? -/
def startsWith : List Char → List Char → Bool
  | [], _ => true
  | _ :: _, [] => false
  | c :: p, c' :: s => c = c' && startsWith p s

/-- Python's `pat in s` on strings: does `pat` occur as a contiguous substring
of `s`? -/
def containsSub (pat : List Char) : List Char → Bool
  | [] => startsWith pat []
  | c :: rest => startsWith pat (c :: rest) || containsSub pat rest

/-- The pagination-relevant state of the rendered page: `numLinks` are the
normalized labels of the `a` elements with class containing `num` that become
clickable within the 3-second wait (a label is absent from the list exactly
when waiting for it would raise `TimeoutException`); `nextBtn` is `none` when
waiting for `a.edge_nav.nav_next` to be clickable times out, and `some cls`
when it is clickable with class attribute `cls` (`none` inside models a null
attribute, which the source replaces with `""`). -/
structure Browser where
  numLinks : List String
  nextBtn : Option (Option String)

/-- `go_to_next_page`: tier 1 waits for a clickable numeric link labeled
exactly `str(current_page + 1)` and clicks it (success); on timeout, tier 2
waits for the generic next button: timeout means failure, a class attribute
containing `"disabled"` or `"off"` means the control is inactive (end of
listing, failure), otherwise it is clicked (success).  Both timeouts are
caught; the function always returns a Bool. -/
def go_to_next_page (b : Browser) (current_page : Nat) : Bool :=
  let next_str := toString (current_page + 1)
  if b.numLinks.contains next_str then true
  else
    match b.nextBtn with
    | none => false
    | some cls =>
      let class_attr := cls.getD ""
      if containsSub "disabled".data class_attr.data ||
          containsSub "off".data class_attr.data then false
      else true

/-- `MAX_PAGES`, the safety cap on the crawl loop. -/
def MAX_PAGES : Nat := 200

/-- What one visited page presents to the crawler: the candidate items the
extractor sees and the pagination state the advancer sees.  A whole run's
environment maps the current page number to this. -/
structure PageEnv where
  items : List Item
  browser : Browser

/-- The `while current_page <= MAX_PAGES` loop of `main`, with the remaining
number of permitted iterations made explicit as structural fuel.  `crawl_loop`
below always calls this with `fuel = MAX_PAGES + 1 - current_page`, so fuel
runs out exactly when the guard `current_page > MAX_PAGES` fails, and both
exits return the same value; the fuel only makes the recursion structural.
Returns the loop's result (accumulated rows, or the uncaught exception) paired
with the number of executed loop-body iterations. -/
def crawl_loop_aux (env : Nat → PageEnv) :
    Nat → Nat → List Row → Except PyError (List Row) × Nat
  | 0, _, acc => (.ok acc, 0)
  | fuel + 1, current_page, acc =>
    if MAX_PAGES < current_page then (.ok acc, 0)
    else
      match parse_current_page (env current_page).items with
      | .error e => (.error e, 1)
      | .ok page_rows =>
        if go_to_next_page (env current_page).browser current_page then
          let r := crawl_loop_aux env fuel (current_page + 1) (acc ++ page_rows)
          (r.1, r.2 + 1)
        else (.ok (acc ++ page_rows), 1)

/-- The crawl loop of `main`: starting from `current_page` with accumulator
`acc`, loop while `current_page ≤ MAX_PAGES`: parse the current page, extend
the accumulator, attempt advancement, break on failure, increment on
success. -/
def crawl_loop (env : Nat → PageEnv) (current_page : Nat) (acc : List Row) :
    Except PyError (List Row) × Nat :=
  crawl_loop_aux env (MAX_PAGES + 1 - current_page) current_page acc

/-- Decimal digits of `n`, most significant first, with recursion fuel `n + 1`
(more than enough, since the argument shrinks by a factor of ten each step).
Models Python `str` on a nonnegative int. -/
def natDigitsAux : Nat → Nat → List Char
  | 0, _ => []
  | fuel + 1, n =>
    if n < 10 then [Char.ofNat (48 + n)]
    else natDigitsAux fuel (n / 10) ++ [Char.ofNat (48 + n % 10)]

/-- Python `str` of a nonnegative integer. -/
def natDigits (n : Nat) : List Char := natDigitsAux (n + 1) n

/-- Does a CSV field need quoting under Python's default QUOTE_MINIMAL dialect:
it contains the delimiter, the quote character, or a character of the line
terminator `"\r\n"`. -/
def needsQuote (s : List Char) : Bool :=
  s.any (fun c => c = ',' || c = '"' || c = '\r' || c = '\n')

/-- Double every quote character, for a quoted CSV field. -/
def escapeQuotes (s : List Char) : List Char :=
  s.foldr (fun c acc => if c = '"' then '"' :: '"' :: acc else c :: acc) []

/-- Serialize one CSV field: quoted with doubled inner quotes when needed,
verbatim otherwise. -/
def csv_field (s : List Char) : List Char :=
  if needsQuote s then '"' :: (escapeQuotes s ++ ['"']) else s

/-- Serialize one CSV record: fields joined by commas, terminated by CRLF
(Python `csv.writer`'s default line terminator). -/
def csv_record (fs : List (List Char)) : List Char :=
  List.intercalate [','] (fs.map csv_field) ++ ['\r', '\n']

/-- The header row written first: `["제품명", "총용량(L)", "냉동(L)", "냉장(L)"]`. -/
def headerFields : List (List Char) :=
  ["제품명".data, "총용량(L)".data, "냉동(L)".data, "냉장(L)".data]

/-- The four serialized fields of a product row, in the order the source
appends them: name, total, freezer, fridge. -/
def rowFields (r : Row) : List (List Char) :=
  [r.1.data, natDigits r.2.1, natDigits r.2.2.1, natDigits r.2.2.2]

/-- The full content written to `danawa_fridge_capacity.csv`: the `utf-8-sig`
byte-order marker, then the header record, then one record per accumulated row
in accumulation order, nothing else. -/
def csv_output (rows : List Row) : List Char :=
  '\uFEFF' :: (csv_record headerFields ++ (rows.map (fun r => csv_record (rowFields r))).flatten)

/-- The observable resource/output actions of `main`: closing the browser
session (`driver.quit()`) and writing a file's content. -/
inductive Event where
  | quit : Event
  | write : List Char → Event
deriving DecidableEq

/-- The content of a write event, if any. -/
def writeContent : Event → Option (List Char)
  | .write c => some c
  | .quit => none

/-- `main` after driver setup: run the crawl loop from page 1 with an empty
accumulator; if it raises, the exception propagates and neither
`driver.quit()` nor the CSV write is reached (the source has no try/finally);
otherwise quit the driver, then write the CSV once.  Returns the emitted
events in order, and the rows (or the uncaught exception). -/
def run_main (env : Nat → PageEnv) : List Event × Except PyError (List Row) :=
  match crawl_loop env 1 [] with
  | (.error e, _) => ([], .error e)
  | (.ok rows, _) => ([.quit, .write (csv_output rows)], .ok rows)

/-- Split a character stream at every CRLF, the inverse view of a CSV byte
stream as a sequence of records (valid when no record content contains a
carriage return). -/
def splitCRLF : List Char → List (List Char)
  | [] => [[]]
  | [c] => [[c]]
  | c :: c2 :: rest =>
    if c = '\r' && c2 = '\n' then [] :: splitCRLF rest
    else (splitCRLF (c2 :: rest)).modifyHead (fun r => c :: r)

end Danawa

namespace Danawa

/-! ### Spec-side rendering of labeled capacity fields

These definitions follow the spec's description of a spec text "containing
labeled fields": a field is its label, a colon and a space, a number possibly
laden with comma separators, and the unit `L`; fields are separated by
slashes.  They exist to quantify over such texts and are compared against the
behavior of the parser embedded above. -/

/-- One labeled capacity field, rendered as `label: numberL`. -/
def renderField (f : List Char × List Char) : List Char :=
  f.1 ++ ':' :: ' ' :: (f.2 ++ ['L'])

/-- A spec text made of labeled fields separated by slashes. -/
def renderFields : List (List Char × List Char) → List Char
  | [] => []
  | [f] => renderField f
  | f :: g :: fs => renderField f ++ '/' :: renderFields (g :: fs)

/-- A well-formed separator-laden number: only digits and commas, with at
least one digit. -/
def okGroup (g : List Char) : Bool := g.all isDigitOrComma && g.any Char.isDigit

/-- The integer a separator-laden number denotes: its digits with the comma
separators removed, read in decimal. -/
def groupVal (g : List Char) : Nat :=
  (removeCommas g).foldl (fun a c => a * 10 + (c.toNat - 48)) 0

/-- The characters of one product row's CSV record, before the line
terminator: the four fields separated by commas.  The reader-side counterpart
of `csv_record (rowFields r)` for rows whose fields need no quoting. -/
def rowChars (r : Row) : List Char :=
  r.1.data ++ ',' :: natDigits r.2.1 ++ ',' :: natDigits r.2.2.1 ++
    ',' :: natDigits r.2.2.2

/-! ### Lemmas about the pattern matcher -/

theorem matchAt_cons (c c' : Char) (l s : List Char) :
    matchAt (c :: l) (c' :: s) = if c = c' then matchAt l s else none := rfl

theorem matchAt_cons_ne (c c' : Char) (l s : List Char) (h : c ≠ c') :
    matchAt (c :: l) (c' :: s) = none := by
  rw [matchAt_cons, if_neg h]

theorem matchAt_cons_cons_ne (a b b' : Char) (l s : List Char) (h : b ≠ b') :
    matchAt (a :: b :: l) (a :: b' :: s) = none := by
  rw [matchAt_cons, if_pos rfl, matchAt_cons_ne _ _ _ _ h]

theorem matchAt_append_self (l s : List Char) : matchAt l (l ++ s) = matchRest s := by
  induction l with
  | nil => rfl
  | cons c l ih => rw [List.cons_append, matchAt_cons, if_pos rfl, ih]

theorem reSearch_cons (label : List Char) (c : Char) (s : List Char) :
    reSearch label (c :: s) =
      match matchAt label (c :: s) with
      | some g => some g
      | none => reSearch label s := rfl

theorem reSearch_of_matchAt (label s g : List Char) (h : matchAt label s = some g) :
    reSearch label s = some g := by
  cases s with
  | nil => simpa [reSearch] using h
  | cons c rest => rw [reSearch_cons, h]

theorem reSearch_cons_of_none (label : List Char) (c : Char) (s : List Char)
    (h : matchAt label (c :: s) = none) : reSearch label (c :: s) = reSearch label s := by
  rw [reSearch_cons, h]

theorem reSearch_append_of_ne (a : Char) (lab p s : List Char) (h : ∀ c ∈ p, c ≠ a) :
    reSearch (a :: lab) (p ++ s) = reSearch (a :: lab) s := by
  induction p with
  | nil => rfl
  | cons c p ih =>
    rw [List.cons_append,
      reSearch_cons_of_none _ _ _
        (matchAt_cons_ne _ _ _ _ (fun e => h c (List.mem_cons_self _ _) e.symm)),
      ih (fun x hx => h x (List.mem_cons_of_mem _ hx))]

theorem reSearch_none_of_ne (a : Char) (lab s : List Char) (h : ∀ c ∈ s, c ≠ a) :
    reSearch (a :: lab) s = none := by
  have h0 := reSearch_append_of_ne a lab s [] h
  rw [List.append_nil] at h0
  exact h0

theorem not_space_of_digitOrComma (c : Char) (h : isDigitOrComma c = true) :
    isSpace c = false := by
  cases hs : isSpace c
  · rfl
  · exfalso
    simp only [isSpace, Bool.or_eq_true, decide_eq_true_eq] at hs
    rcases hs with (((((h1 | h1) | h1) | h1) | h1) | h1) <;> subst h1 <;>
      exact absurd h (by decide)

theorem digitOrComma_ne (c a : Char) (h : isDigitOrComma c = true)
    (ha : isDigitOrComma a = false) : c ≠ a := by
  intro e
  rw [e, ha] at h
  exact Bool.noConfusion h

theorem takeWhile_append_all (p : Char → Bool) (g : List Char) (y : Char) (ys : List Char)
    (hg : ∀ c ∈ g, p c = true) (hy : p y = false) :
    (g ++ y :: ys).takeWhile p = g := by
  induction g with
  | nil => simp [List.takeWhile_cons, hy]
  | cons c g ih =>
    rw [List.cons_append, List.takeWhile_cons, hg c (List.mem_cons_self _ _)]
    simp [ih (fun x hx => hg x (List.mem_cons_of_mem _ hx))]

theorem dropWhile_append_all (p : Char → Bool) (g : List Char) (y : Char) (ys : List Char)
    (hg : ∀ c ∈ g, p c = true) (hy : p y = false) :
    (g ++ y :: ys).dropWhile p = y :: ys := by
  induction g with
  | nil => simp [List.dropWhile_cons, hy]
  | cons c g ih =>
    rw [List.cons_append, List.dropWhile_cons, hg c (List.mem_cons_self _ _)]
    simp [ih (fun x hx => hg x (List.mem_cons_of_mem _ hx))]

theorem matchRest_colon_space (g rest : List Char)
    (hg : ∀ c ∈ g, isDigitOrComma c = true) (hne : g ≠ []) :
    matchRest (':' :: ' ' :: (g ++ 'L' :: rest)) = some g := by
  obtain ⟨c0, g0, rfl⟩ : ∃ c0 g0, g = c0 :: g0 := by
    cases g with
    | nil => exact absurd rfl hne
    | cons a b => exact ⟨a, b, rfl⟩
  have hc0 : isSpace c0 = false :=
    not_space_of_digitOrComma c0 (hg c0 (List.mem_cons_self _ _))
  have htake : List.takeWhile isDigitOrComma ((c0 :: g0) ++ 'L' :: rest) = c0 :: g0 :=
    takeWhile_append_all isDigitOrComma (c0 :: g0) 'L' rest hg (by decide)
  have hdropn : List.dropWhile isDigitOrComma ((c0 :: g0) ++ 'L' :: rest) = 'L' :: rest :=
    dropWhile_append_all isDigitOrComma (c0 :: g0) 'L' rest hg (by decide)
  have hdrops : List.dropWhile isSpace ((c0 :: g0) ++ 'L' :: rest) =
      (c0 :: g0) ++ 'L' :: rest := by
    rw [List.cons_append, List.dropWhile_cons, hc0]
    simp
  unfold matchRest
  rw [List.dropWhile_cons]
  simp only [show isSpace ':' = false from rfl, Bool.false_eq_true, if_false]
  rw [List.dropWhile_cons]
  simp only [show isSpace ' ' = true from rfl, if_true]
  rw [hdrops, htake, hdropn]
  rw [List.dropWhile_cons]
  simp [show isSpace 'L' = false from rfl]

end Danawa

namespace Danawa

/-! ### Field-level search lemmas -/

theorem reSearch_renderField_here (a : Char) (lab g s : List Char)
    (hg : ∀ c ∈ g, isDigitOrComma c = true) (hne : g ≠ []) :
    reSearch (a :: lab) (renderField (a :: lab, g) ++ s) = some g := by
  apply reSearch_of_matchAt
  have heq : renderField (a :: lab, g) ++ s = (a :: lab) ++ (':' :: ' ' :: (g ++ 'L' :: s)) := by
    simp [renderField]
  rw [heq, matchAt_append_self, matchRest_colon_space g s hg hne]

theorem reSearch_renderField_last (a : Char) (lab g : List Char)
    (hg : ∀ c ∈ g, isDigitOrComma c = true) (hne : g ≠ []) :
    reSearch (a :: lab) (renderField (a :: lab, g)) = some g := by
  have h0 := reSearch_renderField_here a lab g [] hg hne
  rwa [List.append_nil] at h0

theorem renderField_sep_chars (lf g : List Char) (a : Char)
    (hg : ∀ c ∈ g, isDigitOrComma c = true)
    (ha : isDigitOrComma a = false)
    (hlf : ∀ c ∈ lf, c ≠ a)
    (h1 : ':' ≠ a) (h2 : ' ' ≠ a) (h3 : 'L' ≠ a) (h4 : '/' ≠ a) :
    ∀ c ∈ lf ++ ':' :: ' ' :: (g ++ ['L', '/']), c ≠ a := by
  intro c hc
  simp only [List.mem_append, List.mem_cons, List.mem_singleton,
    List.not_mem_nil, or_false] at hc
  rcases hc with h | h | h | h | h | h
  · exact hlf c h
  · exact h ▸ h1
  · exact h ▸ h2
  · exact digitOrComma_ne c a (hg c h) ha
  · exact h ▸ h3
  · exact h ▸ h4

theorem reSearch_skip_field (a : Char) (lab lf g s : List Char)
    (hg : ∀ c ∈ g, isDigitOrComma c = true)
    (ha : isDigitOrComma a = false)
    (hlf : ∀ c ∈ lf, c ≠ a)
    (h1 : ':' ≠ a) (h2 : ' ' ≠ a) (h3 : 'L' ≠ a) (h4 : '/' ≠ a) :
    reSearch (a :: lab) (renderField (lf, g) ++ '/' :: s) = reSearch (a :: lab) s := by
  have heq : renderField (lf, g) ++ '/' :: s =
      (lf ++ ':' :: ' ' :: (g ++ ['L', '/'])) ++ s := by
    simp [renderField]
  rw [heq]
  exact reSearch_append_of_ne a lab _ s (renderField_sep_chars lf g a hg ha hlf h1 h2 h3 h4)

theorem reSearch_none_field (a : Char) (lab lf g : List Char)
    (hg : ∀ c ∈ g, isDigitOrComma c = true)
    (ha : isDigitOrComma a = false)
    (hlf : ∀ c ∈ lf, c ≠ a)
    (h1 : ':' ≠ a) (h2 : ' ' ≠ a) (h3 : 'L' ≠ a) :
    reSearch (a :: lab) (renderField (lf, g)) = none := by
  apply reSearch_none_of_ne
  intro c hc
  simp only [renderField, List.mem_append, List.mem_cons, List.mem_singleton,
    List.not_mem_nil, or_false] at hc
  rcases hc with h | h | h | h | h
  · exact hlf c h
  · exact h ▸ h1
  · exact h ▸ h2
  · exact digitOrComma_ne c a (hg c h) ha
  · exact h ▸ h3

theorem reSearch_skip_clash (b b' : Char) (lab g s : List Char)
    (hg : ∀ c ∈ g, isDigitOrComma c = true)
    (hb : b ≠ b') (hb' : b' ≠ '냉') :
    reSearch ('냉' :: b :: lab) (renderField (['냉', b'], g) ++ '/' :: s) =
      reSearch ('냉' :: b :: lab) s := by
  have heq : renderField (['냉', b'], g) ++ '/' :: s =
      '냉' :: b' :: ((':' :: ' ' :: (g ++ ['L', '/'])) ++ s) := by
    simp [renderField]
  rw [heq, reSearch_cons_of_none _ _ _ (matchAt_cons_cons_ne '냉' b b' lab _ hb)]
  rw [show b' :: ((':' :: ' ' :: (g ++ ['L', '/'])) ++ s) =
      (b' :: ':' :: ' ' :: (g ++ ['L', '/'])) ++ s from rfl]
  apply reSearch_append_of_ne
  intro c hc
  simp only [List.mem_append, List.mem_cons, List.mem_singleton,
    List.not_mem_nil, or_false] at hc
  rcases hc with h | h | h | h | h | h
  · exact h ▸ hb'
  · exact h ▸ (by decide : ':' ≠ '냉')
  · exact h ▸ (by decide : ' ' ≠ '냉')
  · exact digitOrComma_ne c '냉' (hg c h) (by decide)
  · exact h ▸ (by decide : 'L' ≠ '냉')
  · exact h ▸ (by decide : '/' ≠ '냉')

theorem reSearch_clash_last (b b' : Char) (lab g : List Char)
    (hg : ∀ c ∈ g, isDigitOrComma c = true)
    (hb : b ≠ b') (hb' : b' ≠ '냉') :
    reSearch ('냉' :: b :: lab) (renderField (['냉', b'], g)) = none := by
  have heq : renderField (['냉', b'], g) =
      '냉' :: b' :: (':' :: ' ' :: (g ++ ['L'])) := by
    simp [renderField]
  rw [heq, reSearch_cons_of_none _ _ _ (matchAt_cons_cons_ne '냉' b b' lab _ hb)]
  apply reSearch_none_of_ne
  intro c hc
  simp only [List.mem_append, List.mem_cons, List.mem_singleton,
    List.not_mem_nil, or_false] at hc
  rcases hc with h | h | h | h | h
  · exact h ▸ hb'
  · exact h ▸ (by decide : ':' ≠ '냉')
  · exact h ▸ (by decide : ' ' ≠ '냉')
  · exact digitOrComma_ne c '냉' (hg c h) (by decide)
  · exact h ▸ (by decide : 'L' ≠ '냉')

/-! ### okGroup, find_l and extract_capacities helpers -/

theorem okGroup_all (g : List Char) (h : okGroup g = true) :
    ∀ c ∈ g, isDigitOrComma c = true := by
  have h1 := (Bool.and_eq_true _ _).mp h |>.1
  exact fun c hc => List.all_eq_true.mp h1 c hc

theorem okGroup_has_digit (g : List Char) (h : okGroup g = true) :
    ∃ c ∈ g, c.isDigit = true := by
  have h2 := (Bool.and_eq_true _ _).mp h |>.2
  exact List.any_eq_true.mp h2

theorem okGroup_ne_nil (g : List Char) (h : okGroup g = true) : g ≠ [] := by
  obtain ⟨c, hc, _⟩ := okGroup_has_digit g h
  exact List.ne_nil_of_mem hc

theorem removeCommas_all_digit (g : List Char) (h : okGroup g = true) :
    (removeCommas g).all Char.isDigit = true := by
  rw [List.all_eq_true]
  intro c hc
  rw [removeCommas, List.mem_filter] at hc
  have hdc := okGroup_all g h c hc.1
  have hcomma : (c == ',') = false := by
    cases hcm : c == ','
    · rfl
    · exact absurd (eq_of_beq hcm) (by simpa using hc.2)
  rcases Bool.or_eq_true _ _ |>.mp hdc with hd | he
  · exact hd
  · exact absurd (by simpa using he) (by simpa using hcomma)

theorem removeCommas_ne_nil (g : List Char) (h : okGroup g = true) :
    (removeCommas g).isEmpty = false := by
  obtain ⟨c, hc, hd⟩ := okGroup_has_digit g h
  have hmem : c ∈ removeCommas g := by
    rw [removeCommas, List.mem_filter]
    refine ⟨hc, ?_⟩
    have : c ≠ ',' := by
      intro e
      rw [e] at hd
      exact absurd hd (by decide)
    simpa using this
  cases hrc : removeCommas g with
  | nil => rw [hrc] at hmem; exact absurd hmem (List.not_mem_nil c)
  | cons a l => rfl

theorem find_l_some (label text g : List Char) (h : reSearch label text = some g)
    (hok : okGroup g = true) : find_l label text = .ok (some (groupVal g)) := by
  have hp : pyInt (removeCommas g) = .ok (groupVal g) := by
    unfold pyInt
    rw [removeCommas_ne_nil g hok, removeCommas_all_digit g hok]
    rfl
  simp only [find_l, h, hp]

theorem find_l_of_none (label text : List Char) (h : reSearch label text = none) :
    find_l label text = .ok none := by
  simp only [find_l, h]

theorem extract_capacities_eq (s : String) (t fr fz : Option Nat)
    (h1 : find_l totalLabel s.data = .ok t)
    (h2 : find_l fridgeLabel s.data = .ok fr)
    (h3 : find_l freezerLabel s.data = .ok fz) :
    extract_capacities s = .ok (t, fr, fz) := by
  unfold extract_capacities
  rw [h1, h2, h3]

end Danawa

namespace Danawa

/-- C2: for every spec text containing all three labeled capacity fields, in
any of the six orders and with numbers arbitrarily laden with comma
separators, `extract_capacities` returns the three corresponding integers
with the separator characters removed. -/
theorem extract_capacities_three_fields (gt gr gf : List Char)
    (fs : List (List Char × List Char))
    (ht : okGroup gt = true) (hr : okGroup gr = true) (hf : okGroup gf = true)
    (horder :
      fs = [(totalLabel, gt), (fridgeLabel, gr), (freezerLabel, gf)] ∨
      fs = [(totalLabel, gt), (freezerLabel, gf), (fridgeLabel, gr)] ∨
      fs = [(fridgeLabel, gr), (totalLabel, gt), (freezerLabel, gf)] ∨
      fs = [(fridgeLabel, gr), (freezerLabel, gf), (totalLabel, gt)] ∨
      fs = [(freezerLabel, gf), (totalLabel, gt), (fridgeLabel, gr)] ∨
      fs = [(freezerLabel, gf), (fridgeLabel, gr), (totalLabel, gt)]) :
    extract_capacities (String.mk (renderFields fs)) =
      .ok (some (groupVal gt), some (groupVal gr), some (groupVal gf)) := by
  have hgt := okGroup_all gt ht
  have hgtn := okGroup_ne_nil gt ht
  have hgr := okGroup_all gr hr
  have hgrn := okGroup_ne_nil gr hr
  have hgf := okGroup_all gf hf
  have hgfn := okGroup_ne_nil gf hf
  rcases horder with rfl | rfl | rfl | rfl | rfl | rfl
  · exact extract_capacities_eq _ _ _ _
      (find_l_some _ _ gt (by
        simp only [renderFields, totalLabel, fridgeLabel, freezerLabel]
        exact reSearch_renderField_here '총' ['용', '량'] gt _ hgt hgtn) ht)
      (find_l_some _ _ gr (by
        simp only [renderFields, totalLabel, fridgeLabel, freezerLabel]
        rw [reSearch_skip_field '냉' ['장'] ['총', '용', '량'] gt _ hgt (by decide)
          (by decide) (by decide) (by decide) (by decide) (by decide)]
        exact reSearch_renderField_here '냉' ['장'] gr _ hgr hgrn) hr)
      (find_l_some _ _ gf (by
        simp only [renderFields, totalLabel, fridgeLabel, freezerLabel]
        rw [reSearch_skip_field '냉' ['동'] ['총', '용', '량'] gt _ hgt (by decide)
          (by decide) (by decide) (by decide) (by decide) (by decide)]
        rw [reSearch_skip_clash '동' '장' [] gr _ hgr (by decide) (by decide)]
        exact reSearch_renderField_last '냉' ['동'] gf hgf hgfn) hf)
  · exact extract_capacities_eq _ _ _ _
      (find_l_some _ _ gt (by
        simp only [renderFields, totalLabel, fridgeLabel, freezerLabel]
        exact reSearch_renderField_here '총' ['용', '량'] gt _ hgt hgtn) ht)
      (find_l_some _ _ gr (by
        simp only [renderFields, totalLabel, fridgeLabel, freezerLabel]
        rw [reSearch_skip_field '냉' ['장'] ['총', '용', '량'] gt _ hgt (by decide)
          (by decide) (by decide) (by decide) (by decide) (by decide)]
        rw [reSearch_skip_clash '장' '동' [] gf _ hgf (by decide) (by decide)]
        exact reSearch_renderField_last '냉' ['장'] gr hgr hgrn) hr)
      (find_l_some _ _ gf (by
        simp only [renderFields, totalLabel, fridgeLabel, freezerLabel]
        rw [reSearch_skip_field '냉' ['동'] ['총', '용', '량'] gt _ hgt (by decide)
          (by decide) (by decide) (by decide) (by decide) (by decide)]
        exact reSearch_renderField_here '냉' ['동'] gf _ hgf hgfn) hf)
  · exact extract_capacities_eq _ _ _ _
      (find_l_some _ _ gt (by
        simp only [renderFields, totalLabel, fridgeLabel, freezerLabel]
        rw [reSearch_skip_field '총' ['용', '량'] ['냉', '장'] gr _ hgr (by decide)
          (by decide) (by decide) (by decide) (by decide) (by decide)]
        exact reSearch_renderField_here '총' ['용', '량'] gt _ hgt hgtn) ht)
      (find_l_some _ _ gr (by
        simp only [renderFields, totalLabel, fridgeLabel, freezerLabel]
        exact reSearch_renderField_here '냉' ['장'] gr _ hgr hgrn) hr)
      (find_l_some _ _ gf (by
        simp only [renderFields, totalLabel, fridgeLabel, freezerLabel]
        rw [reSearch_skip_clash '동' '장' [] gr _ hgr (by decide) (by decide)]
        rw [reSearch_skip_field '냉' ['동'] ['총', '용', '량'] gt _ hgt (by decide)
          (by decide) (by decide) (by decide) (by decide) (by decide)]
        exact reSearch_renderField_last '냉' ['동'] gf hgf hgfn) hf)
  · exact extract_capacities_eq _ _ _ _
      (find_l_some _ _ gt (by
        simp only [renderFields, totalLabel, fridgeLabel, freezerLabel]
        rw [reSearch_skip_field '총' ['용', '량'] ['냉', '장'] gr _ hgr (by decide)
          (by decide) (by decide) (by decide) (by decide) (by decide)]
        rw [reSearch_skip_field '총' ['용', '량'] ['냉', '동'] gf _ hgf (by decide)
          (by decide) (by decide) (by decide) (by decide) (by decide)]
        exact reSearch_renderField_last '총' ['용', '량'] gt hgt hgtn) ht)
      (find_l_some _ _ gr (by
        simp only [renderFields, totalLabel, fridgeLabel, freezerLabel]
        exact reSearch_renderField_here '냉' ['장'] gr _ hgr hgrn) hr)
      (find_l_some _ _ gf (by
        simp only [renderFields, totalLabel, fridgeLabel, freezerLabel]
        rw [reSearch_skip_clash '동' '장' [] gr _ hgr (by decide) (by decide)]
        exact reSearch_renderField_here '냉' ['동'] gf _ hgf hgfn) hf)
  · exact extract_capacities_eq _ _ _ _
      (find_l_some _ _ gt (by
        simp only [renderFields, totalLabel, fridgeLabel, freezerLabel]
        rw [reSearch_skip_field '총' ['용', '량'] ['냉', '동'] gf _ hgf (by decide)
          (by decide) (by decide) (by decide) (by decide) (by decide)]
        exact reSearch_renderField_here '총' ['용', '량'] gt _ hgt hgtn) ht)
      (find_l_some _ _ gr (by
        simp only [renderFields, totalLabel, fridgeLabel, freezerLabel]
        rw [reSearch_skip_clash '장' '동' [] gf _ hgf (by decide) (by decide)]
        rw [reSearch_skip_field '냉' ['장'] ['총', '용', '량'] gt _ hgt (by decide)
          (by decide) (by decide) (by decide) (by decide) (by decide)]
        exact reSearch_renderField_last '냉' ['장'] gr hgr hgrn) hr)
      (find_l_some _ _ gf (by
        simp only [renderFields, totalLabel, fridgeLabel, freezerLabel]
        exact reSearch_renderField_here '냉' ['동'] gf _ hgf hgfn) hf)
  · exact extract_capacities_eq _ _ _ _
      (find_l_some _ _ gt (by
        simp only [renderFields, totalLabel, fridgeLabel, freezerLabel]
        rw [reSearch_skip_field '총' ['용', '량'] ['냉', '동'] gf _ hgf (by decide)
          (by decide) (by decide) (by decide) (by decide) (by decide)]
        rw [reSearch_skip_field '총' ['용', '량'] ['냉', '장'] gr _ hgr (by decide)
          (by decide) (by decide) (by decide) (by decide) (by decide)]
        exact reSearch_renderField_last '총' ['용', '량'] gt hgt hgtn) ht)
      (find_l_some _ _ gr (by
        simp only [renderFields, totalLabel, fridgeLabel, freezerLabel]
        rw [reSearch_skip_clash '장' '동' [] gf _ hgf (by decide) (by decide)]
        exact reSearch_renderField_here '냉' ['장'] gr _ hgr hgrn) hr)
      (find_l_some _ _ gf (by
        simp only [renderFields, totalLabel, fridgeLabel, freezerLabel]
        exact reSearch_renderField_here '냉' ['동'] gf _ hgf hgfn) hf)

end Danawa

namespace Danawa

/-- C3: for every spec text in which exactly one of the three labels does not
occur (the other two fields present, in either order), `extract_capacities`
returns `none` for exactly the missing field and the correct parsed integers
for the other two: each field is searched independently. -/
theorem extract_capacities_missing_label (g1 g2 : List Char)
    (h1 : okGroup g1 = true) (h2 : okGroup g2 = true) :
    (∀ fs, (fs = [(fridgeLabel, g1), (freezerLabel, g2)] ∨
            fs = [(freezerLabel, g2), (fridgeLabel, g1)]) →
      extract_capacities (String.mk (renderFields fs)) =
        .ok (none, some (groupVal g1), some (groupVal g2))) ∧
    (∀ fs, (fs = [(totalLabel, g1), (freezerLabel, g2)] ∨
            fs = [(freezerLabel, g2), (totalLabel, g1)]) →
      extract_capacities (String.mk (renderFields fs)) =
        .ok (some (groupVal g1), none, some (groupVal g2))) ∧
    (∀ fs, (fs = [(totalLabel, g1), (fridgeLabel, g2)] ∨
            fs = [(fridgeLabel, g2), (totalLabel, g1)]) →
      extract_capacities (String.mk (renderFields fs)) =
        .ok (some (groupVal g1), some (groupVal g2), none)) := by
  have hg1 := okGroup_all g1 h1
  have hg1n := okGroup_ne_nil g1 h1
  have hg2 := okGroup_all g2 h2
  have hg2n := okGroup_ne_nil g2 h2
  refine ⟨fun fs horder => ?_, fun fs horder => ?_, fun fs horder => ?_⟩
  · rcases horder with rfl | rfl
    · exact extract_capacities_eq _ _ _ _
        (find_l_of_none _ _ (by
          simp only [renderFields, totalLabel, fridgeLabel, freezerLabel]
          rw [reSearch_skip_field '총' ['용', '량'] ['냉', '장'] g1 _ hg1 (by decide)
            (by decide) (by decide) (by decide) (by decide) (by decide)]
          exact reSearch_none_field '총' ['용', '량'] ['냉', '동'] g2 hg2 (by decide)
            (by decide) (by decide) (by decide) (by decide)))
        (find_l_some _ _ g1 (by
          simp only [renderFields, totalLabel, fridgeLabel, freezerLabel]
          exact reSearch_renderField_here '냉' ['장'] g1 _ hg1 hg1n) h1)
        (find_l_some _ _ g2 (by
          simp only [renderFields, totalLabel, fridgeLabel, freezerLabel]
          rw [reSearch_skip_clash '동' '장' [] g1 _ hg1 (by decide) (by decide)]
          exact reSearch_renderField_last '냉' ['동'] g2 hg2 hg2n) h2)
    · exact extract_capacities_eq _ _ _ _
        (find_l_of_none _ _ (by
          simp only [renderFields, totalLabel, fridgeLabel, freezerLabel]
          rw [reSearch_skip_field '총' ['용', '량'] ['냉', '동'] g2 _ hg2 (by decide)
            (by decide) (by decide) (by decide) (by decide) (by decide)]
          exact reSearch_none_field '총' ['용', '량'] ['냉', '장'] g1 hg1 (by decide)
            (by decide) (by decide) (by decide) (by decide)))
        (find_l_some _ _ g1 (by
          simp only [renderFields, totalLabel, fridgeLabel, freezerLabel]
          rw [reSearch_skip_clash '장' '동' [] g2 _ hg2 (by decide) (by decide)]
          exact reSearch_renderField_last '냉' ['장'] g1 hg1 hg1n) h1)
        (find_l_some _ _ g2 (by
          simp only [renderFields, totalLabel, fridgeLabel, freezerLabel]
          exact reSearch_renderField_here '냉' ['동'] g2 _ hg2 hg2n) h2)
  · rcases horder with rfl | rfl
    · exact extract_capacities_eq _ _ _ _
        (find_l_some _ _ g1 (by
          simp only [renderFields, totalLabel, fridgeLabel, freezerLabel]
          exact reSearch_renderField_here '총' ['용', '량'] g1 _ hg1 hg1n) h1)
        (find_l_of_none _ _ (by
          simp only [renderFields, totalLabel, fridgeLabel, freezerLabel]
          rw [reSearch_skip_field '냉' ['장'] ['총', '용', '량'] g1 _ hg1 (by decide)
            (by decide) (by decide) (by decide) (by decide) (by decide)]
          exact reSearch_clash_last '장' '동' [] g2 hg2 (by decide) (by decide)))
        (find_l_some _ _ g2 (by
          simp only [renderFields, totalLabel, fridgeLabel, freezerLabel]
          rw [reSearch_skip_field '냉' ['동'] ['총', '용', '량'] g1 _ hg1 (by decide)
            (by decide) (by decide) (by decide) (by decide) (by decide)]
          exact reSearch_renderField_last '냉' ['동'] g2 hg2 hg2n) h2)
    · exact extract_capacities_eq _ _ _ _
        (find_l_some _ _ g1 (by
          simp only [renderFields, totalLabel, fridgeLabel, freezerLabel]
          rw [reSearch_skip_field '총' ['용', '량'] ['냉', '동'] g2 _ hg2 (by decide)
            (by decide) (by decide) (by decide) (by decide) (by decide)]
          exact reSearch_renderField_last '총' ['용', '량'] g1 hg1 hg1n) h1)
        (find_l_of_none _ _ (by
          simp only [renderFields, totalLabel, fridgeLabel, freezerLabel]
          rw [reSearch_skip_clash '장' '동' [] g2 _ hg2 (by decide) (by decide)]
          exact reSearch_none_field '냉' ['장'] ['총', '용', '량'] g1 hg1 (by decide)
            (by decide) (by decide) (by decide) (by decide)))
        (find_l_some _ _ g2 (by
          simp only [renderFields, totalLabel, fridgeLabel, freezerLabel]
          exact reSearch_renderField_here '냉' ['동'] g2 _ hg2 hg2n) h2)
  · rcases horder with rfl | rfl
    · exact extract_capacities_eq _ _ _ _
        (find_l_some _ _ g1 (by
          simp only [renderFields, totalLabel, fridgeLabel, freezerLabel]
          exact reSearch_renderField_here '총' ['용', '량'] g1 _ hg1 hg1n) h1)
        (find_l_some _ _ g2 (by
          simp only [renderFields, totalLabel, fridgeLabel, freezerLabel]
          rw [reSearch_skip_field '냉' ['장'] ['총', '용', '량'] g1 _ hg1 (by decide)
            (by decide) (by decide) (by decide) (by decide) (by decide)]
          exact reSearch_renderField_last '냉' ['장'] g2 hg2 hg2n) h2)
        (find_l_of_none _ _ (by
          simp only [renderFields, totalLabel, fridgeLabel, freezerLabel]
          rw [reSearch_skip_field '냉' ['동'] ['총', '용', '량'] g1 _ hg1 (by decide)
            (by decide) (by decide) (by decide) (by decide) (by decide)]
          exact reSearch_clash_last '동' '장' [] g2 hg2 (by decide) (by decide)))
    · exact extract_capacities_eq _ _ _ _
        (find_l_some _ _ g1 (by
          simp only [renderFields, totalLabel, fridgeLabel, freezerLabel]
          rw [reSearch_skip_field '총' ['용', '량'] ['냉', '장'] g2 _ hg2 (by decide)
            (by decide) (by decide) (by decide) (by decide) (by decide)]
          exact reSearch_renderField_last '총' ['용', '량'] g1 hg1 hg1n) h1)
        (find_l_some _ _ g2 (by
          simp only [renderFields, totalLabel, fridgeLabel, freezerLabel]
          exact reSearch_renderField_here '냉' ['장'] g2 _ hg2 hg2n) h2)
        (find_l_of_none _ _ (by
          simp only [renderFields, totalLabel, fridgeLabel, freezerLabel]
          rw [reSearch_skip_clash '동' '장' [] g2 _ hg2 (by decide) (by decide)]
          exact reSearch_none_field '냉' ['동'] ['총', '용', '량'] g1 hg1 (by decide)
            (by decide) (by decide) (by decide) (by decide)))

end Danawa

namespace Danawa

/-- Witness for C2 at a concrete input: the rendered text
`총용량: 1,234L/냉장: 503L/냉동: 367L` parses to `(1234, 503, 367)`; in
particular the separator of `1,234` is removed. -/
theorem extract_capacities_three_fields_witness :
    okGroup "1,234".data = true ∧
    extract_capacities (String.mk (renderFields
      [(totalLabel, "1,234".data), (fridgeLabel, "503".data), (freezerLabel, "367".data)])) =
      .ok (some 1234, some 503, some 367) := by
  refine ⟨by decide, ?_⟩
  have h := extract_capacities_three_fields "1,234".data "503".data "367".data _
    (by decide) (by decide) (by decide) (Or.inl rfl)
  rw [h]
  rfl

/-- Witness for C3 at a concrete input: a text with only the fridge and
freezer fields yields `(none, 503, 367)`. -/
theorem extract_capacities_missing_label_witness :
    okGroup "503".data = true ∧
    extract_capacities (String.mk (renderFields
      [(fridgeLabel, "503".data), (freezerLabel, "367".data)])) =
      .ok (none, some 503, some 367) := by
  refine ⟨by decide, ?_⟩
  have h := (extract_capacities_missing_label "503".data "367".data
    (by decide) (by decide)).1 _ (Or.inl rfl)
  rw [h]
  rfl

theorem exists_mem_cons_weaken {α β : Type} (P : α → β → Prop) (a : α) (l : List α)
    (rows : List β) (h : ∀ r ∈ rows, ∃ x ∈ l, P x r) : ∀ r ∈ rows, ∃ x ∈ a :: l, P x r :=
  fun r hr =>
    have ⟨x, hx, hp⟩ := h r hr
    ⟨x, List.mem_cons_of_mem _ hx, hp⟩

/-- C1: the extractor emits a row only when all three capacity fields parsed
from the item's spec text are present; any item with a missing field is
discarded entirely, so the number of emitted rows is at most the number of
candidate items, and every emitted row's three integers come from a successful
all-fields parse of some candidate item's spec text. -/
theorem parse_current_page_all_or_nothing (items : List Item) (rows : List Row)
    (h : parse_current_page items = .ok rows) :
    rows.length ≤ items.length ∧
    ∀ r ∈ rows, ∃ it ∈ items, it.name = some r.1 ∧ ∃ s, specOf it = some s ∧
      extract_capacities s = .ok (some r.2.1, some r.2.2.2, some r.2.2.1) := by
  induction items generalizing rows with
  | nil =>
    simp only [parse_current_page] at h
    cases h
    exact ⟨Nat.le_refl 0, by simp⟩
  | cons it rest ih =>
    cases hname : it.name with
    | none =>
      simp only [parse_current_page, hname] at h
      obtain ⟨hlen, hmem⟩ := ih rows h
      exact ⟨Nat.le_succ_of_le hlen, exists_mem_cons_weaken _ it rest rows hmem⟩
    | some name =>
      cases hspec : specOf it with
      | none =>
        simp only [parse_current_page, hname, hspec] at h
        obtain ⟨hlen, hmem⟩ := ih rows h
        exact ⟨Nat.le_succ_of_le hlen, exists_mem_cons_weaken _ it rest rows hmem⟩
      | some spec_text =>
        cases hex : extract_capacities spec_text with
        | error e =>
          simp only [parse_current_page, hname, hspec, hex] at h
          exact Except.noConfusion h
        | ok triple =>
          obtain ⟨t, fr, fz⟩ := triple
          cases t with
          | none =>
            simp only [parse_current_page, hname, hspec, hex] at h
            obtain ⟨hlen, hmem⟩ := ih rows h
            exact ⟨Nat.le_succ_of_le hlen, exists_mem_cons_weaken _ it rest rows hmem⟩
          | some total_l =>
            cases fr with
            | none =>
              simp only [parse_current_page, hname, hspec, hex] at h
              obtain ⟨hlen, hmem⟩ := ih rows h
              exact ⟨Nat.le_succ_of_le hlen, exists_mem_cons_weaken _ it rest rows hmem⟩
            | some fridge_l =>
              cases fz with
              | none =>
                simp only [parse_current_page, hname, hspec, hex] at h
                obtain ⟨hlen, hmem⟩ := ih rows h
                exact ⟨Nat.le_succ_of_le hlen, exists_mem_cons_weaken _ it rest rows hmem⟩
              | some freezer_l =>
                simp only [parse_current_page, hname, hspec, hex] at h
                cases hrest : parse_current_page rest with
                | error e =>
                  simp only [hrest] at h
                  exact Except.noConfusion h
                | ok rs =>
                  simp only [hrest] at h
                  obtain ⟨hlen, hmem⟩ := ih rs hrest
                  cases h
                  refine ⟨Nat.succ_le_succ hlen, ?_⟩
                  intro r hr
                  rcases List.mem_cons.mp hr with rfl | hr2
                  · exact ⟨it, List.mem_cons_self _ _, hname, spec_text, hspec, hex⟩
                  · have ⟨x, hx, hp⟩ := hmem r hr2
                    exact ⟨x, List.mem_cons_of_mem _ hx, hp⟩

/-- Witness for C1 at a concrete input: a page with two candidate items, one
fully parseable and one with no capacity fields, yields one row, which is at
most the candidate count. -/
theorem parse_current_page_all_or_nothing_witness :
    parse_current_page
        [⟨some "A", some "총용량: 870L/냉장: 503L/냉동: 367L/", none⟩,
          ⟨some "B", some "no fields here", none⟩] = .ok [("A", 870, 367, 503)] ∧
    ([("A", 870, 367, 503)] : List Row).length ≤
      [(⟨some "A", some "총용량: 870L/냉장: 503L/냉동: 367L/", none⟩ : Item),
        ⟨some "B", some "no fields here", none⟩].length := by
  constructor
  · rfl
  · exact (parse_current_page_all_or_nothing
      [⟨some "A", some "총용량: 870L/냉장: 503L/냉동: 367L/", none⟩,
        ⟨some "B", some "no fields here", none⟩]
      [("A", 870, 367, 503)] rfl).1

/-- C4: the end-to-end extractor scenario: one candidate named `ABC Fridge`
with spec text `총용량: 870L/냉장: 503L/냉동: 367L/` yields exactly the row
`("ABC Fridge", 870, 367, 503)`: the emitted tuple places freezer before
fridge even though the parser returns fridge before freezer. -/
theorem parse_current_page_abc_fridge :
    parse_current_page
        [⟨some "ABC Fridge", some "총용량: 870L/냉장: 503L/냉동: 367L/", none⟩] =
      .ok [("ABC Fridge", 870, 367, 503)] := rfl

/-- C8: the extractor takes the spec block from the primary selector
`div.spec_list`, consulting the secondary selector `div.prod_spec_set` only
when the primary is absent, and skips the candidate (the rest of the page
still parsed) when the name is absent or when neither spec selector
matches. -/
theorem parse_current_page_selector_fallback (it : Item) (rest : List Item) :
    (∀ s, it.spec_list = some s →
      parse_current_page (it :: rest) =
        parse_current_page ({ it with prod_spec_set := none } :: rest)) ∧
    (it.spec_list = none →
      parse_current_page (it :: rest) =
        parse_current_page
          ({ it with spec_list := it.prod_spec_set, prod_spec_set := none } :: rest)) ∧
    (it.name = none → parse_current_page (it :: rest) = parse_current_page rest) ∧
    (∀ n, it.name = some n → it.spec_list = none → it.prod_spec_set = none →
      parse_current_page (it :: rest) = parse_current_page rest) := by
  obtain ⟨n0, sl, ps⟩ := it
  refine ⟨fun s hs => ?_, fun hs => ?_, fun hn => ?_, fun n hn hs hps => ?_⟩
  · replace hs : sl = some s := hs
    subst hs
    cases n0 <;> simp [parse_current_page, specOf]
  · replace hs : sl = none := hs
    subst hs
    cases n0 <;> cases ps <;> simp [parse_current_page, specOf]
  · replace hn : n0 = none := hn
    subst hn
    simp [parse_current_page]
  · replace hn : n0 = some n := hn
    replace hs : sl = none := hs
    replace hps : ps = none := hps
    subst hn; subst hs; subst hps
    simp [parse_current_page, specOf]

/-- Witness for C8 at a concrete input: a candidate with no name element is
skipped, the page parse continuing as if it were absent. -/
theorem parse_current_page_selector_fallback_witness :
    parse_current_page [({ name := none, spec_list := none, prod_spec_set := none } : Item)] =
      parse_current_page [] :=
  (parse_current_page_selector_fallback ⟨none, none, none⟩ []).2.2.1 rfl

end Danawa

namespace Danawa

/-- C5: the two-tier decision procedure of the pagination advancer, called
with `current_page = K`: (1) a clickable numeric link labeled exactly
`str(K+1)` yields success; (2) the outcome depends only on whether the label
`str(K+1)` is present (so links labeled `K` or `K+2` never matter) and on the
next-button state, the latter consulted exactly when tier 1 times out; (3) a
found next button whose class attribute marks it disabled/inactive yields
failure (end of listing); (4) a tier-2 timeout yields failure.  The function
is total: both timeouts are caught and never propagate to the caller. -/
theorem go_to_next_page_decision :
    (∀ (b : Browser) (K : Nat),
      b.numLinks.contains (toString (K + 1)) = true → go_to_next_page b K = true) ∧
    (∀ (b b' : Browser) (K : Nat),
      b.numLinks.contains (toString (K + 1)) = b'.numLinks.contains (toString (K + 1)) →
      b.nextBtn = b'.nextBtn → go_to_next_page b K = go_to_next_page b' K) ∧
    (∀ (b : Browser) (K : Nat) (cls : Option String),
      b.numLinks.contains (toString (K + 1)) = false → b.nextBtn = some cls →
      (containsSub "disabled".data (cls.getD "").data ||
        containsSub "off".data (cls.getD "").data) = true →
      go_to_next_page b K = false) ∧
    (∀ (b : Browser) (K : Nat),
      b.numLinks.contains (toString (K + 1)) = false → b.nextBtn = none →
      go_to_next_page b K = false) := by
  refine ⟨?_, ?_, ?_, ?_⟩
  · intro b K h
    have h' : toString (K + 1) ∈ b.numLinks := by simpa using h
    simp [go_to_next_page, h']
  · intro b b' K h1 h2
    simp only [go_to_next_page, h1, h2]
  · intro b K cls h1 h2 h3
    have h1' : toString (K + 1) ∉ b.numLinks := by simpa using h1
    simp [go_to_next_page, h1', h2, h3]
  · intro b K h1 h2
    have h1' : toString (K + 1) ∉ b.numLinks := by simpa using h1
    simp [go_to_next_page, h1', h2]

/-- Witness for C5 at a concrete input: on page 1 with a clickable link
labeled `2`, the advancer succeeds. -/
theorem go_to_next_page_decision_witness :
    (Browser.mk ["2"] none).numLinks.contains (toString (1 + 1)) = true ∧
    go_to_next_page ⟨["2"], none⟩ 1 = true :=
  ⟨by decide, go_to_next_page_decision.1 ⟨["2"], none⟩ 1 (by decide)⟩

theorem crawl_loop_aux_iterations_le (env : Nat → PageEnv) (fuel : Nat) :
    ∀ (cp : Nat) (acc : List Row), (crawl_loop_aux env fuel cp acc).2 ≤ fuel := by
  induction fuel with
  | zero => intro cp acc; simp [crawl_loop_aux]
  | succ n ih =>
    intro cp acc
    simp only [crawl_loop_aux]
    split
    · simp
    · split
      · simp
      · split
        · exact Nat.succ_le_succ (ih _ _)
        · simp

/-- C6: the crawl loop terminates, executing at most `MAX_PAGES` loop-body
iterations for every environment (even one on which advancement always
succeeds); when advancement fails on a page within the cap the loop stops
after that single iteration; when it succeeds the loop continues at page
`cp + 1` with one more iteration counted. -/
theorem crawl_loop_bounded :
    (∀ env : Nat → PageEnv, (crawl_loop env 1 []).2 ≤ MAX_PAGES) ∧
    (∀ (env : Nat → PageEnv) (cp : Nat) (acc pr : List Row),
      cp ≤ MAX_PAGES → parse_current_page (env cp).items = .ok pr →
      go_to_next_page (env cp).browser cp = false →
      crawl_loop env cp acc = (.ok (acc ++ pr), 1)) ∧
    (∀ (env : Nat → PageEnv) (cp : Nat) (acc pr : List Row),
      cp ≤ MAX_PAGES → parse_current_page (env cp).items = .ok pr →
      go_to_next_page (env cp).browser cp = true →
      crawl_loop env cp acc =
        ((crawl_loop env (cp + 1) (acc ++ pr)).1,
          (crawl_loop env (cp + 1) (acc ++ pr)).2 + 1)) := by
  refine ⟨?_, ?_, ?_⟩
  · intro env
    have h := crawl_loop_aux_iterations_le env (MAX_PAGES + 1 - 1) 1 []
    simpa [crawl_loop] using h
  · intro env cp acc pr hle hp hg
    unfold crawl_loop
    rw [show MAX_PAGES + 1 - cp = (MAX_PAGES - cp) + 1 from by omega]
    simp only [crawl_loop_aux]
    rw [if_neg (by omega : ¬ MAX_PAGES < cp)]
    simp only [hp, hg]
    simp
  · intro env cp acc pr hle hp hg
    unfold crawl_loop
    rw [show MAX_PAGES + 1 - cp = (MAX_PAGES - cp) + 1 from by omega,
      show MAX_PAGES + 1 - (cp + 1) = MAX_PAGES - cp from by omega]
    simp only [crawl_loop_aux]
    rw [if_neg (by omega : ¬ MAX_PAGES < cp)]
    simp only [hp, hg]
    simp

/-- Witness for C6 at a concrete input: with no links and no next button on
page 1 (within the cap), the loop runs exactly one iteration and stops. -/
theorem crawl_loop_bounded_witness :
    1 ≤ MAX_PAGES ∧
    crawl_loop (fun _ => ⟨[], ⟨[], none⟩⟩) 1 [] = (.ok ([] ++ []), 1) :=
  ⟨by decide, crawl_loop_bounded.2.1 (fun _ => ⟨[], ⟨[], none⟩⟩) 1 [] [] (by decide) rfl rfl⟩

end Danawa

namespace Danawa

/-! ### CSV output lemmas -/

theorem char_digit_isDigit (m : Nat) (h : m < 10) : (Char.ofNat (48 + m)).isDigit = true := by
  interval_cases m <;> decide

theorem natDigitsAux_all_digit (fuel : Nat) :
    ∀ n : Nat, ∀ c ∈ natDigitsAux fuel n, c.isDigit = true := by
  induction fuel with
  | zero => intro n c hc; simp [natDigitsAux] at hc
  | succ m ih =>
    intro n c hc
    simp only [natDigitsAux] at hc
    by_cases h : n < 10
    · rw [if_pos h] at hc
      simp only [List.mem_singleton] at hc
      subst hc
      exact char_digit_isDigit n h
    · rw [if_neg h] at hc
      rcases List.mem_append.mp hc with h1 | h1
      · exact ih _ c h1
      · simp only [List.mem_singleton] at h1
        subst h1
        exact char_digit_isDigit _ (Nat.mod_lt _ (by omega))

theorem natDigits_all_digit (n : Nat) : ∀ c ∈ natDigits n, c.isDigit = true :=
  natDigitsAux_all_digit (n + 1) n

theorem special_of_digit_false (c : Char) (h : c.isDigit = true) :
    (c = ',' || c = '"' || c = '\x0d' || c = '\n') = false := by
  cases hb : (c = ',' || c = '"' || c = '\x0d' || c = '\n')
  · rfl
  · exfalso
    simp only [Bool.or_eq_true, decide_eq_true_eq] at hb
    rcases hb with ((h1 | h1) | h1) | h1 <;> subst h1 <;> exact absurd h (by decide)

theorem needsQuote_natDigits (n : Nat) : needsQuote (natDigits n) = false := by
  unfold needsQuote
  cases hq : (natDigits n).any fun c => c = ',' || c = '"' || c = '\x0d' || c = '\n'
  · rfl
  · exfalso
    obtain ⟨c, hc, hp⟩ := List.any_eq_true.mp hq
    rw [special_of_digit_false c (natDigits_all_digit n c hc)] at hp
    exact Bool.noConfusion hp

theorem ne_cr_of_needsQuote (s : List Char) (h : needsQuote s = false) :
    ∀ c ∈ s, c ≠ '\x0d' := by
  intro c hc e
  subst e
  have : s.any (fun c => c = ',' || c = '"' || c = '\x0d' || c = '\n') = true :=
    List.any_eq_true.mpr ⟨'\x0d', hc, by decide⟩
  rw [needsQuote] at h
  rw [this] at h
  exact Bool.noConfusion h

theorem ne_cr_of_digit (s : List Char) (h : ∀ c ∈ s, c.isDigit = true) :
    ∀ c ∈ s, c ≠ '\x0d' := by
  intro c hc e
  subst e
  exact absurd (h _ hc) (by decide)

theorem csv_field_no_quote (s : List Char) (h : needsQuote s = false) : csv_field s = s := by
  unfold csv_field
  rw [h]
  rfl

theorem csv_record_four (f1 f2 f3 f4 : List Char)
    (h1 : needsQuote f1 = false) (h2 : needsQuote f2 = false)
    (h3 : needsQuote f3 = false) (h4 : needsQuote f4 = false) :
    csv_record [f1, f2, f3, f4] =
      f1 ++ ',' :: f2 ++ ',' :: f3 ++ ',' :: f4 ++ ['\x0d', '\n'] := by
  simp [csv_record, csv_field_no_quote, h1, h2, h3, h4, List.intercalate, List.intersperse]

theorem csv_record_rowFields (r : Row) (h : needsQuote r.1.data = false) :
    csv_record (rowFields r) = rowChars r ++ ['\x0d', '\n'] := by
  rw [rowFields, csv_record_four _ _ _ _ h (needsQuote_natDigits _) (needsQuote_natDigits _)
    (needsQuote_natDigits _)]
  simp [rowChars]

theorem splitCRLF_cons_ne (c : Char) (s : List Char) (hc : c ≠ '\x0d') :
    splitCRLF (c :: s) = (splitCRLF s).modifyHead (fun r => c :: r) := by
  cases s with
  | nil => simp [splitCRLF]
  | cons c2 rest => simp [splitCRLF, hc]

theorem splitCRLF_crlf (s : List Char) : splitCRLF ('\x0d' :: '\n' :: s) = [] :: splitCRLF s := by
  simp [splitCRLF]

theorem splitCRLF_ne_nil (s : List Char) : splitCRLF s ≠ [] := by
  induction s using splitCRLF.induct with
  | case1 => simp [splitCRLF]
  | case2 => simp [splitCRLF]
  | case3 c c2 rest h ih =>
    rw [splitCRLF]
    rw [if_pos h]
    simp
  | case4 c c2 rest h ih =>
    rw [splitCRLF]
    rw [if_neg h]
    cases hs : splitCRLF (c2 :: rest) with
    | nil => exact absurd hs ih
    | cons a l => simp [List.modifyHead]

theorem splitCRLF_append (x y : List Char) (hx : ∀ c ∈ x, c ≠ '\x0d') :
    splitCRLF (x ++ '\x0d' :: '\n' :: y) = x :: splitCRLF y := by
  induction x with
  | nil => simpa using splitCRLF_crlf y
  | cons c cs ih =>
    rw [List.cons_append, splitCRLF_cons_ne c _ (hx c (List.mem_cons_self _ _)),
      ih (fun a ha => hx a (List.mem_cons_of_mem _ ha))]
    rfl

theorem splitCRLF_records (f : Row → List Char) (rs : List Row)
    (h : ∀ r ∈ rs, ∀ c ∈ f r, c ≠ '\x0d') :
    splitCRLF ((rs.map (fun r => f r ++ ['\x0d', '\n'])).flatten) = rs.map f ++ [[]] := by
  induction rs with
  | nil => simp [splitCRLF]
  | cons r rs ih =>
    simp only [List.map_cons, List.flatten_cons]
    rw [show (f r ++ ['\x0d', '\n']) ++ (rs.map (fun r => f r ++ ['\x0d', '\n'])).flatten =
        f r ++ '\x0d' :: '\n' :: (rs.map (fun r => f r ++ ['\x0d', '\n'])).flatten from by
      simp]
    rw [splitCRLF_append _ _ (h r (List.mem_cons_self _ _)),
      ih (fun x hx => h x (List.mem_cons_of_mem _ hx))]
    rfl

end Danawa

namespace Danawa

/-- C7: the result sink writes the accumulated rows exactly once, at the end
of a run that raises no exception, as a comma-delimited byte stream that
starts with the `utf-8-sig` byte-order marker, whose first CRLF-terminated
record is the fixed header `제품명,총용량(L),냉동(L),냉장(L)`, followed by one
record per accumulated row in accumulation order and nothing else (no
trailing summary record).  Stated for rows whose product names need no CSV
quoting, so that records and CRLF terminators coincide. -/
theorem run_main_csv_output (env : Nat → PageEnv) (evts : List Event) (rows : List Row)
    (h : run_main env = (evts, .ok rows))
    (hnames : ∀ r ∈ rows, needsQuote r.1.data = false) :
    evts.filterMap writeContent = [csv_output rows] ∧
    splitCRLF (csv_output rows) =
      ('\uFEFF' :: "제품명,총용량(L),냉동(L),냉장(L)".data) :: rows.map rowChars ++ [[]] := by
  unfold run_main at h
  rcases hcl : crawl_loop env 1 [] with ⟨res, n⟩
  rw [hcl] at h
  cases res with
  | error e => simp at h
  | ok rows0 =>
    simp only [Prod.mk.injEq, Except.ok.injEq] at h
    obtain ⟨he, hr⟩ := h
    subst he
    subst hr
    constructor
    · rfl
    · have hclean : ∀ r ∈ rows0, ∀ c ∈ rowChars r, c ≠ '\x0d' := by
        intro r hr c hc
        rw [rowChars] at hc
        rcases List.mem_append.mp hc with h1 | h1
        · rcases List.mem_append.mp h1 with h2 | h2
          · rcases List.mem_append.mp h2 with h3 | h3
            · exact ne_cr_of_needsQuote _ (hnames r hr) c h3
            · rcases List.mem_cons.mp h3 with h4 | h4
              · subst h4; decide
              · exact ne_cr_of_digit _ (natDigits_all_digit r.2.1) c h4
          · rcases List.mem_cons.mp h2 with h4 | h4
            · subst h4; decide
            · exact ne_cr_of_digit _ (natDigits_all_digit r.2.2.1) c h4
        · rcases List.mem_cons.mp h1 with h4 | h4
          · subst h4; decide
          · exact ne_cr_of_digit _ (natDigits_all_digit r.2.2.2) c h4
      have hmap : rows0.map (fun r => csv_record (rowFields r)) =
          rows0.map (fun r => rowChars r ++ ['\x0d', '\n']) := by
        apply List.map_congr_left
        intro r hr
        exact csv_record_rowFields r (hnames r hr)
      rw [show csv_output rows0 = '\uFEFF' :: (csv_record headerFields ++
          (rows0.map (fun r => csv_record (rowFields r))).flatten) from rfl, hmap]
      rw [show csv_record headerFields =
          "제품명,총용량(L),냉동(L),냉장(L)".data ++ ['\x0d', '\n'] from by decide]
      rw [show '\uFEFF' :: (("제품명,총용량(L),냉동(L),냉장(L)".data ++ ['\x0d', '\n']) ++
            (rows0.map (fun r => rowChars r ++ ['\x0d', '\n'])).flatten) =
          ('\uFEFF' :: "제품명,총용량(L),냉동(L),냉장(L)".data) ++
            '\x0d' :: '\n' :: (rows0.map (fun r => rowChars r ++ ['\x0d', '\n'])).flatten
          from by simp]
      rw [splitCRLF_append _ _ (by decide), splitCRLF_records rowChars rows0 hclean]
      rfl

/-- Witness for C7 at a concrete input: a one-row run writes one file whose
records are the header and the one row. -/
theorem run_main_csv_output_witness :
    run_main (fun _ =>
        ⟨[⟨some "ABC Fridge", some "총용량: 870L/냉장: 503L/냉동: 367L/", none⟩], ⟨[], none⟩⟩) =
      ([Event.quit, Event.write (csv_output [("ABC Fridge", 870, 367, 503)])],
        .ok [("ABC Fridge", 870, 367, 503)]) ∧
    splitCRLF (csv_output [("ABC Fridge", 870, 367, 503)]) =
      ('\uFEFF' :: "제품명,총용량(L),냉동(L),냉장(L)".data) ::
        [(("ABC Fridge", 870, 367, 503) : Row)].map rowChars ++ [[]] := by
  constructor
  · rfl
  · exact (run_main_csv_output
      (fun _ =>
        ⟨[⟨some "ABC Fridge", some "총용량: 870L/냉장: 503L/냉동: 367L/", none⟩], ⟨[], none⟩⟩)
      [Event.quit, Event.write (csv_output [("ABC Fridge", 870, 367, 503)])]
      [("ABC Fridge", 870, 367, 503)] rfl (by decide)).2

/-- C9 counterexample: the claim that `driver.quit()` is reached
unconditionally — including runs in which parsing raises — is false on the
code: `main` has no try/finally, so on a page whose spec text makes `int("")`
raise, the ValueError propagates and the run emits no quit event. -/
theorem run_main_quit_skipped_on_error :
    (run_main (fun _ => ⟨[⟨some "X", some "총용량: ,L", none⟩], ⟨[], none⟩⟩)).2 =
      .error PyError.valueError ∧
    Event.quit ∉ (run_main (fun _ => ⟨[⟨some "X", some "총용량: ,L", none⟩], ⟨[], none⟩⟩)).1 := by
  constructor
  · rfl
  · decide

/-- C9 (amended): the browser session is released at the end of every run in
which no exception escapes the crawl loop: whenever `run_main` returns an
`.ok` result, the quit event was emitted.  (A run in which page parsing
raises skips the release.) -/
theorem run_main_quit_on_ok (env : Nat → PageEnv) (evts : List Event) (rows : List Row)
    (h : run_main env = (evts, .ok rows)) : Event.quit ∈ evts := by
  unfold run_main at h
  rcases hcl : crawl_loop env 1 [] with ⟨res, n⟩
  rw [hcl] at h
  cases res with
  | error e => simp at h
  | ok rows0 =>
    simp only [Prod.mk.injEq, Except.ok.injEq] at h
    obtain ⟨he, _⟩ := h
    subst he
    exact List.mem_cons_self _ _

/-- Witness for C9's amended claim at a concrete input: a benign empty run
returns `.ok` and its event list contains the quit. -/
theorem run_main_quit_on_ok_witness :
    run_main (fun _ => ⟨[], ⟨[], none⟩⟩) =
      ([Event.quit, Event.write (csv_output [])], .ok []) ∧
    Event.quit ∈ [Event.quit, Event.write (csv_output [])] :=
  ⟨rfl, run_main_quit_on_ok (fun _ => ⟨[], ⟨[], none⟩⟩)
    [Event.quit, Event.write (csv_output [])] [] rfl⟩

/-- C10: `extract_capacities` is not total over arbitrary spec texts: on
`총용량: ,L` the capture group `[\d,]+` matches the digit-free string `","`,
the comma stripping yields the empty string, and `int("")` raises ValueError;
the exception is caught nowhere in the program, so a whole run on a page
containing such a spec text propagates the error (and writes nothing). -/
theorem extract_capacities_value_error :
    extract_capacities "총용량: ,L" = .error PyError.valueError ∧
    run_main (fun _ =>
        ⟨[⟨some "Fridge", some "총용량: ,L/냉장: 1L/냉동: 1L", none⟩], ⟨[], none⟩⟩) =
      ([], .error PyError.valueError) :=
  ⟨rfl, rfl⟩

end Danawa
